import Mathlib

/-!
Verification of the gitvex Git Smart-HTTP core against its specification.

Shallow embedding notes:
* Byte sequences (`Uint8Array`) are modelled as `List Nat`, each element a byte value.
* TypeScript exceptions are modelled with `Except PktError`; each constructor of
  `PktError` corresponds to one `throw` site of `src/.../pkt.ts` (src/unnamed/part_013).
* `TextDecoder`-based string comparisons against short ASCII literals ("0000",
  "0001", "0002", "ERR ") are modelled as byte-list comparisons; UTF-8 decoding
  yields those exact strings only for those exact bytes, so this is faithful.
-/

namespace Gitvex

/-- Packets produced by `PktLine.decode` (src/unnamed/part_013, `Packet` union).
The error message is kept as raw bytes. -/
inductive Packet where
  | flush
  | delim
  | responseEnd
  | data (payload : List Nat)
  | error (message : List Nat)
deriving DecidableEq, Repr

/-- One constructor per `throw` site in the `PktLine` class. -/
inductive PktError where
  | payloadTooLarge      -- encode: payload > MAX_PAYLOAD_SIZE
  | sidebandTooLarge     -- encodeSideband: payload > MAX_SIDEBAND_PAYLOAD
  | bufferTooShort       -- decode: fewer bytes than the header demands
  | invalidHeader        -- parsePktLength: header not 4 bytes
  | invalidHex           -- parsePktLength: Number.parseInt gave NaN
  | lengthTooSmall       -- parsePktLength: length < 4
  | lengthTooLarge       -- parsePktLength: length > MAX_PKT_SIZE
  | invalidFormatLength  -- formatPktLength: length < 0 or > MAX_PKT_SIZE
deriving DecidableEq, Repr

/-- The four bytes "0000" (flush packet). -/
def flushBytes : List Nat := [48, 48, 48, 48]

/-- The four bytes "0001" (delimiter packet). -/
def delimBytes : List Nat := [48, 48, 48, 49]

/-- The four bytes "0002" (response-end packet). -/
def responseEndBytes : List Nat := [48, 48, 48, 50]

/-- The four bytes "ERR " (error-packet prefix). -/
def errPrefixBytes : List Nat := [69, 82, 82, 32]

/-- ASCII code of the lowercase hex digit for `d < 16`
(as produced by JavaScript `Number.prototype.toString(16)`). -/
def hexChar (d : Nat) : Nat := if d < 10 then 48 + d else 87 + d

/-- The 4 bytes of `length.toString(16).padStart(4, "0")` for `n < 65536`
(the only lengths `formatPktLength` accepts are ≤ 65520). -/
def natToHex4 (n : Nat) : List Nat :=
  [hexChar (n / 4096 % 16), hexChar (n / 256 % 16), hexChar (n / 16 % 16), hexChar (n % 16)]

/-- Whitespace skipped by JavaScript `Number.parseInt` (ASCII part plus NBSP/BOM;
the remaining Unicode space characters do not occur as single bytes). -/
def isJsSpace (c : Nat) : Bool :=
  c = 9 || c = 10 || c = 11 || c = 12 || c = 13 || c = 32 || c = 160 || c = 65279

/-- Value of one hex digit character (0-9, a-f, A-F), as `Number.parseInt(_, 16)` accepts. -/
def hexVal (c : Nat) : Option Nat :=
  if 48 ≤ c ∧ c ≤ 57 then some (c - 48)
  else if 97 ≤ c ∧ c ≤ 102 then some (c - 87)
  else if 65 ≤ c ∧ c ≤ 70 then some (c - 55)
  else none

/-- Accumulate the longest prefix of hex digits; `none` when no digit was seen
(the NaN case of `parseInt`). -/
def parseHexPrefix : List Nat → Option Nat → Option Nat
  | [], acc => acc
  | c :: cs, acc =>
    match hexVal c with
    | some d => parseHexPrefix cs (some ((acc.getD 0) * 16 + d))
    | none => acc

/-- Drop a leading "0x"/"0X", as `parseInt(_, 16)` does. -/
def strip0x (l : List Nat) : List Nat :=
  match l with
  | a :: b :: rest => if a = 48 ∧ (b = 120 ∨ b = 88) then rest else l
  | _ => l

/-- Model of JavaScript `Number.parseInt(s, 16)` on a byte string:
skip whitespace, optional sign, optional 0x, then the longest hex-digit prefix;
`none` models NaN. -/
def jsParseIntHex (s : List Nat) : Option Int :=
  let t := s.dropWhile isJsSpace
  let sign : Int := if t.head? = some 45 then -1 else 1
  let t := if t.head? = some 45 ∨ t.head? = some 43 then t.tail else t
  (parseHexPrefix (strip0x t) none).map (fun n => sign * (n : Int))

/-- `PktLine.parsePktLength` (src/unnamed/part_013 lines 278-303). -/
def parsePktLength (header : List Nat) : Except PktError Nat :=
  if header.length ≠ 4 then .error .invalidHeader
  else
    match jsParseIntHex header with
    | none => .error .invalidHex
    | some v =>
      if v < 4 then .error .lengthTooSmall
      else if v > 65520 then .error .lengthTooLarge
      else .ok v.toNat

/-- `PktLine.formatPktLength` (lines 312-320). -/
def formatPktLength (length : Nat) : Except PktError (List Nat) :=
  if length > 65520 then .error .invalidFormatLength
  else .ok (natToHex4 length)

/-- `PktLine.encode` (lines 81-97) on a byte payload. -/
def pktEncode (payload : List Nat) : Except PktError (List Nat) :=
  if payload.length > 65516 then .error .payloadTooLarge
  else
    match formatPktLength (payload.length + 4) with
    | .error e => .error e
    | .ok header => .ok (header ++ payload)

/-- The successful value of `pktEncode` (for payloads that fit). -/
def pktEncodeOk (payload : List Nat) : List Nat :=
  natToHex4 (payload.length + 4) ++ payload

/-- `PktLine.decode` (lines 186-229). `buffer.slice(a, b)` is `(take b).drop a`. -/
def pktDecode (buffer : List Nat) : Except PktError Packet :=
  if buffer.length < 4 then .error .bufferTooShort
  else
    let lengthHex := buffer.take 4
    if lengthHex = flushBytes then .ok .flush
    else if lengthHex = delimBytes then .ok .delim
    else if lengthHex = responseEndBytes then .ok .responseEnd
    else
      match parsePktLength lengthHex with
      | .error e => .error e
      | .ok length =>
        if buffer.length < length then .error .bufferTooShort
        else
          let data := (buffer.take length).drop 4
          if 4 ≤ data.length ∧ data.take 4 = errPrefixBytes then
            .ok (.error (data.drop 4))
          else .ok (.data data)

theorem hexChar_ge (d : Nat) : 48 ≤ hexChar d := by
  unfold hexChar; split <;> omega

theorem hexChar_bounds (d : Nat) (h : d < 16) :
    hexChar d ≤ 57 ∨ (97 ≤ hexChar d ∧ hexChar d ≤ 102) := by
  unfold hexChar; split <;> omega

theorem hexVal_hexChar (d : Nat) (h : d < 16) : hexVal (hexChar d) = some d := by
  interval_cases d <;> decide

theorem isJsSpace_hexChar (d : Nat) (h : d < 16) : isJsSpace (hexChar d) = false := by
  interval_cases d <;> decide

theorem natToHex4_length (n : Nat) : (natToHex4 n).length = 4 := rfl

theorem jsParseIntHex_natToHex4 (n : Nat) (h : n < 65536) :
    jsParseIntHex (natToHex4 n) = some (n : Int) := by
  have h3 : n / 4096 % 16 < 16 := Nat.mod_lt _ (by omega)
  have h2 : n / 256 % 16 < 16 := Nat.mod_lt _ (by omega)
  have h1 : n / 16 % 16 < 16 := Nat.mod_lt _ (by omega)
  have h0 : n % 16 < 16 := Nat.mod_lt _ (by omega)
  have g3 := hexChar_ge (n / 4096 % 16)
  have gb := hexChar_bounds (n / 256 % 16) h2
  have hstrip : strip0x [hexChar (n / 4096 % 16), hexChar (n / 256 % 16),
      hexChar (n / 16 % 16), hexChar (n % 16)] =
      [hexChar (n / 4096 % 16), hexChar (n / 256 % 16),
       hexChar (n / 16 % 16), hexChar (n % 16)] := by
    simp only [strip0x]
    rw [if_neg (by rintro ⟨-, hb | hb⟩ <;> omega)]
  unfold jsParseIntHex natToHex4
  rw [List.dropWhile_cons, isJsSpace_hexChar _ h3]
  simp only [Bool.false_eq_true, if_false, List.head?_cons, List.tail_cons]
  rw [if_neg (by simp only [Option.some.injEq]; omega)]
  rw [if_neg (by rintro (hc | hc) <;> (simp only [Option.some.injEq] at hc; omega))]
  rw [hstrip]
  simp only [parseHexPrefix, hexVal_hexChar _ h3, hexVal_hexChar _ h2,
    hexVal_hexChar _ h1, hexVal_hexChar _ h0, Option.getD_none, Option.getD_some]
  simp only [Option.map_eq_map, Option.bind_eq_bind, Option.some_bind, Option.map_some',
    Option.some.injEq, Nat.cast_inj]
  simp only [Option.pure_def, Option.map_some', Option.some.injEq]
  omega

theorem parsePktLength_natToHex4 (n : Nat) (h4 : 4 ≤ n) (hm : n ≤ 65520) :
    parsePktLength (natToHex4 n) = .ok n := by
  unfold parsePktLength
  rw [if_neg (by simp [natToHex4_length])]
  rw [jsParseIntHex_natToHex4 n (by omega)]
  simp only
  rw [if_neg (by omega), if_neg (by omega)]
  simp

theorem pktEncode_ok (p : List Nat) (h : p.length ≤ 65516) :
    pktEncode p = .ok (pktEncodeOk p) := by
  unfold pktEncode formatPktLength pktEncodeOk
  rw [if_neg (by omega), if_neg (by omega)]

theorem jsParseIntHex_flush : jsParseIntHex flushBytes = some 0 := by decide

theorem jsParseIntHex_delim : jsParseIntHex delimBytes = some 1 := by decide

theorem jsParseIntHex_responseEnd : jsParseIntHex responseEndBytes = some 2 := by decide

theorem natToHex4_ne_special (n : Nat) (h4 : 4 ≤ n) (h : n < 65536) :
    natToHex4 n ≠ flushBytes ∧ natToHex4 n ≠ delimBytes ∧ natToHex4 n ≠ responseEndBytes := by
  refine ⟨fun he => ?_, fun he => ?_, fun he => ?_⟩ <;>
    [have := jsParseIntHex_flush; have := jsParseIntHex_delim;
     have := jsParseIntHex_responseEnd] <;>
  · rw [← he, jsParseIntHex_natToHex4 n h, Option.some.injEq] at this
    omega

/-- Behaviour of `PktLine.decode` on a buffer that starts with a successfully
encoded packet (possibly followed by more bytes): the payload comes back, except
that a payload starting with the bytes of "ERR " is reinterpreted as an error
packet (src/unnamed/part_013 lines 219-228). -/
theorem pktDecode_pktEncodeOk_append (x tail : List Nat) (hlen : x.length ≤ 65516) :
    pktDecode (pktEncodeOk x ++ tail) =
      .ok (if 4 ≤ x.length ∧ x.take 4 = errPrefixBytes then .error (x.drop 4)
           else .data x) := by
  have hhdr : (natToHex4 (x.length + 4)).length = 4 := natToHex4_length _
  have hbuf : (pktEncodeOk x ++ tail).length = x.length + 4 + tail.length := by
    simp [pktEncodeOk, natToHex4_length]; omega
  obtain ⟨hf, hd, hr⟩ := natToHex4_ne_special (x.length + 4) (by omega) (by omega)
  have htake : (pktEncodeOk x ++ tail).take 4 = natToHex4 (x.length + 4) := by
    rw [pktEncodeOk, List.append_assoc, List.take_left' hhdr]
  have hpre : (natToHex4 (x.length + 4) ++ x).length = x.length + 4 := by
    rw [List.length_append, hhdr]; omega
  unfold pktDecode
  rw [if_neg (by omega)]
  simp only [htake]
  rw [if_neg hf, if_neg hd, if_neg hr]
  rw [parsePktLength_natToHex4 (x.length + 4) (by omega) (by omega)]
  simp only
  rw [if_neg (by omega)]
  have hdata : ((pktEncodeOk x ++ tail).take (x.length + 4)).drop 4 = x := by
    rw [pktEncodeOk, List.append_assoc, ← List.append_assoc (natToHex4 (x.length + 4)),
      List.take_left' hpre, List.drop_left' hhdr]
  rw [hdata]
  by_cases hc : 4 ≤ x.length ∧ List.take 4 x = errPrefixBytes <;> simp [hc]

/-- Special case of `pktDecode_pktEncodeOk_append` with nothing after the packet. -/
theorem pktDecode_pktEncodeOk (x : List Nat) (hlen : x.length ≤ 65516) :
    pktDecode (pktEncodeOk x) =
      .ok (if 4 ≤ x.length ∧ x.take 4 = errPrefixBytes then .error (x.drop 4)
           else .data x) := by
  have := pktDecode_pktEncodeOk_append x [] hlen
  rwa [List.append_nil] at this

/-- C2 (amended): for every byte sequence `x` with `|x| ≤ 65516` whose first four
bytes are not "ERR ", `PktLine.decode (PktLine.encode x)` succeeds and returns a
data packet with payload `x`.  (The unamended claim fails for payloads that begin
with "ERR ", which decode as error packets; see the counterexample.) -/
theorem pkt_encode_decode_roundtrip (x : List Nat) (hlen : x.length ≤ 65516)
    (herr : x.take 4 ≠ errPrefixBytes) :
    ∃ enc, pktEncode x = .ok enc ∧ pktDecode enc = .ok (.data x) := by
  refine ⟨pktEncodeOk x, pktEncode_ok x hlen, ?_⟩
  rw [pktDecode_pktEncodeOk x hlen, if_neg (by rintro ⟨-, hc⟩; exact herr hc)]

/-- Witness for `pkt_encode_decode_roundtrip` at the 2-byte payload "hi". -/
theorem pkt_encode_decode_roundtrip_witness :
    ∃ enc, pktEncode [104, 105] = .ok enc ∧ pktDecode enc = .ok (.data [104, 105]) :=
  pkt_encode_decode_roundtrip [104, 105] (by decide) (by decide)

/-- C2 counterexample: the 5-byte payload "ERR h" satisfies `|x| ≤ 65516`, yet
`decode (encode x)` returns an error packet with message "h", not a data packet
with payload `x`. -/
theorem pkt_roundtrip_err_counterexample :
    (pktEncode [69, 82, 82, 32, 104]).bind pktDecode = .ok (.error [104]) ∧
      Packet.error [104] ≠ Packet.data [69, 82, 82, 32, 104] := by
  constructor
  · rfl
  · intro h
    exact Packet.noConfusion h

/-- C8: `PktLine.encode` succeeds (producing a packet of `|payload| + 4` bytes,
so total size up to exactly 65520) iff `|payload| ≤ 65516`, and fails with
`PayloadTooLarge` iff `|payload| > 65516` (total size 65521 or more). -/
theorem pktEncode_payload_bound (p : List Nat) :
    (p.length ≤ 65516 → pktEncode p = .ok (pktEncodeOk p) ∧
      (pktEncodeOk p).length = p.length + 4) ∧
    (p.length > 65516 → pktEncode p = .error .payloadTooLarge) := by
  constructor
  · intro h
    refine ⟨pktEncode_ok p h, ?_⟩
    simp [pktEncodeOk, natToHex4_length]; omega
  · intro h
    unfold pktEncode
    rw [if_pos (by omega)]

/-- Witness for `pktEncode_payload_bound`: a payload of exactly 65516 bytes is
encoded into a packet of total size exactly 65520; a payload of 65517 bytes
(packet size 65521) is rejected with `payloadTooLarge`. -/
theorem pktEncode_payload_bound_witness :
    (∃ out, pktEncode (List.replicate 65516 0) = .ok out ∧ out.length = 65520) ∧
      pktEncode (List.replicate 65517 0) = .error .payloadTooLarge := by
  constructor
  · obtain ⟨h1, h2⟩ :=
      (pktEncode_payload_bound (List.replicate 65516 0)).1
        (by simp only [List.length_replicate]; exact le_refl _)
    exact ⟨_, h1, by rw [h2]; simp only [List.length_replicate]⟩
  · exact (pktEncode_payload_bound (List.replicate 65517 0)).2
      (by simp only [List.length_replicate]; omega)

/-- Whitespace removed by JavaScript `String.prototype.trim`, restricted to the
single-byte (ASCII) code points.  A multi-byte UTF-8 whitespace character never
contains a space, NUL or newline byte, so the commands and capabilities the
parser extracts are unaffected by this restriction. -/
def isTrimSpace (c : Nat) : Bool :=
  c = 9 || c = 10 || c = 11 || c = 12 || c = 13 || c = 32

/-- `line.trim()` on bytes. -/
def trimBytes (l : List Nat) : List Nat :=
  ((l.dropWhile isTrimSpace).reverse.dropWhile isTrimSpace).reverse

/-- A push command as parsed from one receive-pack command line (protocol.ts,
`Command`).  The fields keep the bytes of the decoded text. -/
structure Command where
  oldOid : List Nat
  newOid : List Nat
  ref : List Nat
deriving DecidableEq, Repr

/-- The result record of `parseReceivePackRequest`. -/
structure ParsedPush where
  commands : List Command
  capabilities : List (List Nat)
  packfile : List Nat
deriving DecidableEq, Repr

/-- Per-data-line processing of `parseReceivePackRequest` (protocol.ts lines
112-130): the decoded line is trimmed, split at the first NUL into a ref-line
and a space-separated capability list, and the ref-line split on single spaces;
a line with fewer than three fields yields no command. -/
def parseDataLine (payload : List Nat) : Option Command × List (List Nat) :=
  let line := trimBytes payload
  let nullIdx := line.findIdx? (fun c => c = 0)
  let refLine := match nullIdx with | some i => line.take i | none => line
  let caps : List (List Nat) :=
    match nullIdx with | some i => (line.drop (i + 1)).splitOn 32 | none => []
  let parts := refLine.splitOn 32
  let cmd : Option Command :=
    match parts with
    | a :: b :: c :: _ => some ⟨a, b, c⟩
    | _ => none
  (cmd, caps)

/-- Loop of `parseReceivePackRequest` (protocol.ts lines 95-132).  The `offset`
cursor is represented by passing the remaining suffix of the input
(`data.subarray(offset)` and `data.slice(offset, offset+4)` become `data` and
`data.take 4`).  `fuel` bounds the number of iterations; the initial fuel
`data.length + 1` always suffices because every successfully decoded packet
consumes at least 4 bytes, so the fuel-exhaustion branch is unreachable.
The `.getD 0` on `jsParseIntHex` is likewise unreachable: when `decode`
succeeded on a non-special packet the same four header bytes parsed to a value
in [4, 65520]. -/
def parseReceivePackGo (fuel : Nat) (data : List Nat) (commands : List Command)
    (capabilities : List (List Nat)) : Except PktError ParsedPush :=
  match fuel with
  | 0 => .ok ⟨commands, capabilities, data⟩
  | fuel + 1 =>
    if data.length = 0 then .ok ⟨commands, capabilities, data⟩
    else
      match pktDecode data with
      | .error e => .error e
      | .ok packet =>
        let lengthHex := data.take 4
        let packetLength :=
          if lengthHex = delimBytes ∨ lengthHex = flushBytes ∨ lengthHex = responseEndBytes
          then 4
          else ((jsParseIntHex lengthHex).getD 0).toNat
        let rest := data.drop packetLength
        match packet with
        | .flush => .ok ⟨commands, capabilities, rest⟩
        | .data payload =>
          let pr := parseDataLine payload
          let commands' := commands ++ pr.1.toList
          let capabilities' :=
            if 0 < pr.2.length ∧ capabilities.length = 0 then pr.2 else capabilities
          parseReceivePackGo fuel rest commands' capabilities'
        | _ => parseReceivePackGo fuel rest commands capabilities

/-- `parseReceivePackRequest` (protocol.ts lines 90-137). -/
def parseReceivePackRequest (data : List Nat) : Except PktError ParsedPush :=
  parseReceivePackGo (data.length + 1) data [] []

/-- A payload that `PktLine.decode` reports as an error packet instead of data. -/
def isErrPayload (p : List Nat) : Bool :=
  decide (4 ≤ p.length) && decide (p.take 4 = errPrefixBytes)

/-- The command contributed by one well-formed pkt-line of a receive-pack body. -/
def lineCommand (p : List Nat) : Option Command :=
  if isErrPayload p then none else (parseDataLine p).1

/-- The capability list carried by one well-formed pkt-line. -/
def lineCaps (p : List Nat) : List (List Nat) :=
  if isErrPayload p then [] else (parseDataLine p).2

/-- The capability list of the first line that carries one (the parser keeps the
first non-empty list it sees). -/
def firstCaps : List (List Nat) → List (List Nat)
  | [] => []
  | p :: ps => if 0 < (lineCaps p).length then lineCaps p else firstCaps ps

/-- The number of space-separated fields on the ref-line part of a command line
(after trimming and cutting at the first NUL). -/
def refFieldCount (p : List Nat) : Nat :=
  (match (trimBytes p).findIdx? (fun c => c = 0) with
   | some i => (trimBytes p).take i
   | none => trimBytes p).splitOn 32 |>.length

theorem pktDecode_flushPacket (rest : List Nat) :
    pktDecode (flushBytes ++ rest) = .ok .flush := by
  unfold pktDecode
  rw [if_neg (by simp [flushBytes]), List.take_left' (by rfl), if_pos rfl]

theorem isErrPayload_iff (p : List Nat) :
    isErrPayload p = true ↔ (4 ≤ p.length ∧ p.take 4 = errPrefixBytes) := by
  unfold isErrPayload
  simp only [Bool.and_eq_true, decide_eq_true_eq]

/-- One loop iteration on a well-formed flush packet: the loop breaks and the
bytes after the flush become the packfile. -/
theorem parseReceivePackGo_flush (rest : List Nat) (fuel : Nat)
    (cmds : List Command) (caps : List (List Nat)) :
    parseReceivePackGo (fuel + 1) (flushBytes ++ rest) cmds caps =
      .ok ⟨cmds, caps, rest⟩ := by
  unfold parseReceivePackGo
  rw [if_neg (by simp [flushBytes])]
  rw [pktDecode_flushPacket]
  dsimp only
  rw [List.take_left' (show flushBytes.length = 4 from rfl)]
  rw [if_pos (Or.inr (Or.inl rfl))]
  rw [List.drop_left' (show flushBytes.length = 4 from rfl)]

/-- One loop iteration on a well-formed data packet: an "ERR "-prefixed payload
is skipped, any other payload contributes its command and capability list. -/
theorem parseReceivePackGo_cons (p tail : List Nat) (hplen : p.length ≤ 65516)
    (fuel : Nat) (cmds : List Command) (caps : List (List Nat)) :
    parseReceivePackGo (fuel + 1) (pktEncodeOk p ++ tail) cmds caps =
      if isErrPayload p then parseReceivePackGo fuel tail cmds caps
      else
        parseReceivePackGo fuel tail (cmds ++ (parseDataLine p).1.toList)
          (if 0 < (parseDataLine p).2.length ∧ caps.length = 0
           then (parseDataLine p).2 else caps) := by
  have hhdr : (natToHex4 (p.length + 4)).length = 4 := natToHex4_length _
  have hpre : (natToHex4 (p.length + 4) ++ p).length = p.length + 4 := by
    rw [List.length_append, hhdr]; omega
  obtain ⟨hfl, hdl, hrl⟩ := natToHex4_ne_special (p.length + 4) (by omega) (by omega)
  have htake4 : (pktEncodeOk p ++ tail).take 4 = natToHex4 (p.length + 4) := by
    rw [pktEncodeOk, List.append_assoc, List.take_left' hhdr]
  have hdrop : (pktEncodeOk p ++ tail).drop (p.length + 4) = tail := by
    rw [pktEncodeOk, List.append_assoc, ← List.append_assoc (natToHex4 (p.length + 4)),
      List.drop_left' hpre]
  unfold parseReceivePackGo
  rw [if_neg (by simp [pktEncodeOk, natToHex4_length])]
  rw [pktDecode_pktEncodeOk_append p tail hplen]
  by_cases herr : isErrPayload p
  · rw [if_pos ((isErrPayload_iff p).mp herr), if_pos herr]
    dsimp only
    rw [htake4]
    rw [if_neg (by rintro (hc | hc | hc); exacts [hdl hc, hfl hc, hrl hc])]
    rw [jsParseIntHex_natToHex4 (p.length + 4) (by omega)]
    simp only [Option.getD_some, Int.toNat_natCast]
    rw [hdrop]
    rw [parseReceivePackGo.eq_def]
  · rw [if_neg (fun hc => herr ((isErrPayload_iff p).mpr hc)), if_neg herr]
    dsimp only
    rw [htake4]
    rw [if_neg (by rintro (hc | hc | hc); exacts [hdl hc, hfl hc, hrl hc])]
    rw [jsParseIntHex_natToHex4 (p.length + 4) (by omega)]
    simp only [Option.getD_some, Int.toNat_natCast]
    rw [hdrop]
    rw [parseReceivePackGo.eq_def]

theorem parseReceivePackGo_encoded (ps : List (List Nat)) :
    ∀ (fuel : Nat) (rest : List Nat) (commands : List Command)
      (capabilities : List (List Nat)),
    (∀ p ∈ ps, p.length ≤ 65516) → ps.length < fuel →
    parseReceivePackGo fuel ((ps.map pktEncodeOk).flatten ++ flushBytes ++ rest)
      commands capabilities =
      .ok ⟨commands ++ ps.filterMap lineCommand,
           if capabilities.length = 0 then firstCaps ps else capabilities, rest⟩ := by
  induction ps with
  | nil =>
    intro fuel rest commands capabilities _ hf
    obtain ⟨fuel, rfl⟩ : ∃ k, fuel = k + 1 := ⟨fuel - 1, by omega⟩
    simp only [List.map_nil, List.flatten_nil, List.nil_append]
    rw [parseReceivePackGo_flush]
    simp only [List.filterMap_nil, List.append_nil, firstCaps]
    by_cases hc : capabilities.length = 0
    · rw [if_pos hc, List.length_eq_zero.mp hc]
    · rw [if_neg hc]
  | cons p ps ih =>
    intro fuel rest commands capabilities hp hf
    obtain ⟨fuel, rfl⟩ : ∃ k, fuel = k + 1 := ⟨fuel - 1, by omega⟩
    have hplen : p.length ≤ 65516 := hp p (by simp)
    have hps : ∀ q ∈ ps, q.length ≤ 65516 := fun q hq => hp q (by simp [hq])
    have hfuel : ps.length < fuel := by simpa using hf
    simp only [List.map_cons, List.flatten_cons, List.append_assoc]
    rw [← List.append_assoc (ps.map pktEncodeOk).flatten]
    rw [parseReceivePackGo_cons p _ hplen]
    by_cases herr : isErrPayload p
    · rw [if_pos herr, ih fuel rest commands capabilities hps hfuel]
      have h1 : lineCommand p = none := by simp [lineCommand, herr]
      have h2 : lineCaps p = [] := by simp [lineCaps, herr]
      rw [List.filterMap_cons, h1]
      simp only [firstCaps, h2, List.length_nil, lt_irrefl, if_false]
    · rw [if_neg herr, ih fuel rest _ _ hps hfuel]
      have h1 : lineCommand p = (parseDataLine p).1 := by simp [lineCommand, herr]
      have h2 : lineCaps p = (parseDataLine p).2 := by simp [lineCaps, herr]
      refine congrArg Except.ok ?_
      refine congrArg₂ (fun a b => ParsedPush.mk a b rest) ?_ ?_
      · rw [List.filterMap_cons, ← h1, List.append_assoc]
        cases hcmd : lineCommand p <;> simp [hcmd, Option.toList]
      · by_cases hcap : capabilities.length = 0
        · have hcapnil : capabilities = [] := List.length_eq_zero.mp hcap
          subst hcapnil
          by_cases hcl : 0 < (parseDataLine p).2.length
          · simp only [List.length_nil, eq_self_iff_true, and_true, firstCaps, h2,
              hcl, if_true]
            rw [if_neg (by omega)]
          · simp only [List.length_nil, eq_self_iff_true, and_true, firstCaps, h2,
              hcl, if_true, if_false]
        · have hin : (if 0 < (parseDataLine p).2.length ∧ capabilities.length = 0
              then (parseDataLine p).2 else capabilities) = capabilities :=
            if_neg (fun hc => hcap hc.2)
          rw [hin, if_neg hcap, if_neg hcap]

theorem encoded_body_length (ps : List (List Nat)) (rest : List Nat) :
    ps.length < ((ps.map pktEncodeOk).flatten ++ flushBytes ++ rest).length + 1 := by
  induction ps with
  | nil => simp only [List.length_nil]; omega
  | cons p ps ih =>
    simp only [List.map_cons, List.flatten_cons, List.append_assoc, List.length_append,
      List.length_cons] at *
    have : 1 ≤ (pktEncodeOk p).length := by
      simp only [pktEncodeOk, List.length_append, natToHex4_length]
      omega
    omega

/-- A command line whose ref-line part has fewer than three space-separated
fields is dropped by the `parts.length >= 3` guard (protocol.ts line 120). -/
theorem parseDataLine_short (p : List Nat) (hshort : refFieldCount p < 3) :
    (parseDataLine p).1 = none := by
  unfold parseDataLine
  unfold refFieldCount at hshort
  cases hidx : (trimBytes p).findIdx? (fun c => c = 0) <;>
    rw [hidx] at hshort <;>
    simp only [hidx] <;>
  · rcases hparts : ((_ : List Nat).splitOn 32) with _ | ⟨a, _ | ⟨b, _ | ⟨c, tl⟩⟩⟩ <;>
      rw [hparts] at hshort <;>
      simp only [List.length_cons, List.length_nil] at hshort <;>
      first
        | rfl
        | omega

/-- C9 (amended): `parseReceivePackRequest` takes the capability list from the
FIRST pkt-line whose payload carries a NUL-delimited (hence non-empty) capability
list — whether or not that is the first command line; once one list is captured,
later ones are ignored.  (The unamended claim — exclusively from the first
command line — is refuted by the counterexample below.) -/
theorem parseReceivePack_capabilities_first_nul (ps : List (List Nat)) (rest : List Nat)
    (hp : ∀ p ∈ ps, p.length ≤ 65516) :
    parseReceivePackRequest ((ps.map pktEncodeOk).flatten ++ flushBytes ++ rest) =
      .ok ⟨ps.filterMap lineCommand, firstCaps ps, rest⟩ := by
  unfold parseReceivePackRequest
  rw [parseReceivePackGo_encoded ps _ rest [] [] hp (encoded_body_length ps rest)]
  simp

/-- Witness for `parseReceivePack_capabilities_first_nul`: a single command line
"a b c\0atomic" yields the command (a, b, c) and capabilities ["atomic"]. -/
theorem parseReceivePack_capabilities_first_nul_witness :
    parseReceivePackRequest
        (([[97, 32, 98, 32, 99, 0, 97, 116, 111, 109, 105, 99]].map pktEncodeOk).flatten ++
          flushBytes ++ [80]) =
      .ok ⟨[[97, 32, 98, 32, 99, 0, 97, 116, 111, 109, 105, 99]].filterMap lineCommand,
           firstCaps [[97, 32, 98, 32, 99, 0, 97, 116, 111, 109, 105, 99]], [80]⟩ :=
  parseReceivePack_capabilities_first_nul
    [[97, 32, 98, 32, 99, 0, 97, 116, 111, 109, 105, 99]] [80] (by decide)

/-- C9 counterexample: a body whose first command line "a b c" carries no NUL
and whose second line "d e f\0atomic" does.  The parser returns capabilities
["atomic"] taken from the second command line; the claim says a NUL-delimited
list on any later command line is ignored, i.e. capabilities would be empty. -/
theorem parseReceivePack_caps_from_second_line :
    parseReceivePackRequest
        (pktEncodeOk [97, 32, 98, 32, 99] ++
          (pktEncodeOk [100, 32, 101, 32, 102, 0, 97, 116, 111, 109, 105, 99] ++ flushBytes)) =
      .ok ⟨[⟨[97], [98], [99]⟩, ⟨[100], [101], [102]⟩], [[97, 116, 111, 109, 105, 99]], []⟩ ∧
    lineCaps [97, 32, 98, 32, 99] = [] := by
  constructor
  · rfl
  · rfl

/-- C10: a receive-pack body made of well-formed pkt-lines (command-line data
packets, then a flush, then the raw packfile bytes) parses without raising an
error, its commands are exactly the per-line parses, bytes after the flush
become the packfile, and a data line whose ref-line has fewer than three
space-separated fields contributes no command while parsing continues. -/
theorem parseReceivePack_short_line_no_command (ps : List (List Nat)) (rest : List Nat)
    (hp : ∀ p ∈ ps, p.length ≤ 65516) (p : List Nat) (hshort : refFieldCount p < 3) :
    parseReceivePackRequest ((ps.map pktEncodeOk).flatten ++ flushBytes ++ rest) =
      .ok ⟨ps.filterMap lineCommand, firstCaps ps, rest⟩ ∧
    lineCommand p = none := by
  constructor
  · unfold parseReceivePackRequest
    rw [parseReceivePackGo_encoded ps _ rest [] [] hp (encoded_body_length ps rest)]
    simp
  · unfold lineCommand
    by_cases herr : isErrPayload p
    · rw [if_pos herr]
    · rw [if_neg herr]
      exact parseDataLine_short p hshort

/-- Witness for `parseReceivePack_short_line_no_command`: the one-field line
"hey" contributes no command, and the following line "a b c" is still parsed;
the bytes [80, 75] after the flush are returned as the packfile. -/
theorem parseReceivePack_short_line_no_command_witness :
    parseReceivePackRequest
        (([[104, 101, 121], [97, 32, 98, 32, 99]].map pktEncodeOk).flatten ++
          flushBytes ++ [80, 75]) =
      .ok ⟨[[104, 101, 121], [97, 32, 98, 32, 99]].filterMap lineCommand,
           firstCaps [[104, 101, 121], [97, 32, 98, 32, 99]], [80, 75]⟩ ∧
    lineCommand [104, 101, 121] = none :=
  parseReceivePack_short_line_no_command [[104, 101, 121], [97, 32, 98, 32, 99]]
    [80, 75] (by decide) [104, 101, 121] (by decide)

/-- The forty-zero OID (service.ts line 772: `"0".repeat(40)`). -/
def zeroOid : String := "0000000000000000000000000000000000000000"

/-- A ref-update command as `GitService.applyRefUpdates` receives it
(service.ts line 768).  Decoded text is kept as `String`. -/
structure RefCommand where
  oldOid : String
  newOid : String
  ref : String
deriving DecidableEq, Repr

/-- `RefUpdateResult` (service.ts lines 7-11); the absent `error` field of an ok
result is `none`. -/
structure RefUpdateResult where
  ref : String
  ok : Bool
  error : Option String
deriving DecidableEq, Repr

/-- The repository state `applyRefUpdates` reads and writes: the loose refs as
an association list (ref name to OID), and the set of OIDs present in the
object store (as a list; used only to state object-existence properties — the
code never consults it). -/
structure RepoState where
  refs : List (String × String)
  objects : List String
deriving DecidableEq, Repr

/-- `git.resolveRef` under try/catch (service.ts lines 780-789): the ref's OID,
or `none` when the ref does not exist. -/
def resolveRefIn (st : RepoState) (ref : String) : Option String :=
  (st.refs.find? (fun pr => pr.1 = ref)).map (fun pr => pr.2)

/-- `git.writeRef` with `force: true`: create-or-replace the ref. -/
def writeRefIn (st : RepoState) (ref oid : String) : RepoState :=
  { st with refs := st.refs.filter (fun pr => pr.1 ≠ ref) ++ [(ref, oid)] }

/-- `git.deleteRef`. -/
def deleteRefIn (st : RepoState) (ref : String) : RepoState :=
  { st with refs := st.refs.filter (fun pr => pr.1 ≠ ref) }

/-- The validation-phase body of `applyRefUpdates` for one command (service.ts
lines 791-861).  `isDesc newOid ancestor` stands for `git.isDescendent`; it is
modelled as a total boolean oracle on the object graph (its throwing behaviour
on unreadable objects is outside this model, as is the catch-all `catch` that
turns such an exception into the exception's message). -/
def validateCmd (isDesc : String → String → Bool) (st : RepoState)
    (cmd : RefCommand) : RefUpdateResult :=
  let isDelete := cmd.newOid = zeroOid
  let isCreate := cmd.oldOid = zeroOid
  let currentOid := resolveRefIn st cmd.ref
  if currentOid.isSome ∧ cmd.oldOid ≠ zeroOid ∧ currentOid ≠ some cmd.oldOid then
    ⟨cmd.ref, false, some "ref update rejected: old OID mismatch"⟩
  else if isDelete then
    if currentOid.isSome then ⟨cmd.ref, true, none⟩
    else ⟨cmd.ref, false, some "ref doesn't exist"⟩
  else if isCreate then
    if currentOid.isSome then ⟨cmd.ref, false, some "ref already exists"⟩
    else ⟨cmd.ref, true, none⟩
  else
    match currentOid with
    | none => ⟨cmd.ref, false, some "ref doesn't exist"⟩
    | some cur =>
      if isDesc cmd.newOid cur then ⟨cmd.ref, true, none⟩
      else ⟨cmd.ref, false, some "non-fast-forward update rejected"⟩

/-- The apply phase of `applyRefUpdates` (service.ts lines 874-903): walk the
commands with their validation results; for each ok result delete or write the
ref, flipping the entry to `failed to update: …` when the store throws.  Store
failures are modelled by the set `failWrites` of refs whose write/delete throws
(with a fixed model message standing for the store's). -/
def applyPhase (failWrites : List String) :
    RepoState → List (RefCommand × RefUpdateResult) → List RefUpdateResult × RepoState
  | st, [] => ([], st)
  | st, (cmd, r) :: rest =>
    if r.ok then
      if failWrites.contains cmd.ref then
        let out := applyPhase failWrites st rest
        (⟨cmd.ref, false, some "failed to update: store write failed"⟩ :: out.1, out.2)
      else
        let st' := if cmd.newOid = zeroOid then deleteRefIn st cmd.ref
                   else writeRefIn st cmd.ref cmd.newOid
        let out := applyPhase failWrites st' rest
        (r :: out.1, out.2)
    else
      let out := applyPhase failWrites st rest
      (r :: out.1, out.2)

/-- `GitService.applyRefUpdates` (service.ts lines 766-906): validate every
command against the initial state (the validation loop performs no writes), then
if `atomic` and any result failed, fail all results (keeping each failed
result's own error, `r.error || "atomic transaction failed"`) and apply nothing;
otherwise run the apply phase. -/
def applyRefUpdates (isDesc : String → String → Bool) (failWrites : List String)
    (st : RepoState) (commands : List RefCommand) (atomic : Bool) :
    List RefUpdateResult × RepoState :=
  let results := commands.map (validateCmd isDesc st)
  if atomic ∧ results.any (fun r => !r.ok) then
    (results.map (fun r => ⟨r.ref, false, some (r.error.getD "atomic transaction failed")⟩), st)
  else
    applyPhase failWrites st (commands.zip results)

/-- The effect of applying every command of a batch (delete refs whose new OID
is zero, write all others). -/
def applyCmds (st : RepoState) (cmds : List RefCommand) : RepoState :=
  cmds.foldl
    (fun s c => if c.newOid = zeroOid then deleteRefIn s c.ref
                else writeRefIn s c.ref c.newOid) st

theorem validateCmd_cases (isDesc : String → String → Bool) (st : RepoState)
    (cmd : RefCommand) :
    validateCmd isDesc st cmd = ⟨cmd.ref, true, none⟩ ∨
      ∃ msg, validateCmd isDesc st cmd = ⟨cmd.ref, false, some msg⟩ := by
  unfold validateCmd
  dsimp only
  repeat' split
  all_goals first | exact Or.inl rfl | exact Or.inr ⟨_, rfl⟩

theorem validateCmd_ref (isDesc : String → String → Bool) (st : RepoState)
    (cmd : RefCommand) : (validateCmd isDesc st cmd).ref = cmd.ref := by
  rcases validateCmd_cases isDesc st cmd with h | ⟨msg, h⟩ <;> rw [h]

theorem validateCmd_ok_error (isDesc : String → String → Bool) (st : RepoState)
    (cmd : RefCommand) (h : (validateCmd isDesc st cmd).ok = true) :
    (validateCmd isDesc st cmd).error = none := by
  rcases validateCmd_cases isDesc st cmd with hc | ⟨msg, hc⟩
  · rw [hc]
  · rw [hc] at h
    simp at h

theorem validateCmd_not_ok_error (isDesc : String → String → Bool) (st : RepoState)
    (cmd : RefCommand) (h : (validateCmd isDesc st cmd).ok = false) :
    ∃ msg, (validateCmd isDesc st cmd).error = some msg := by
  rcases validateCmd_cases isDesc st cmd with hc | ⟨msg, hc⟩
  · rw [hc] at h
    simp at h
  · exact ⟨msg, by rw [hc]⟩

theorem zip_map_self {α β : Type} (f : α → β) (l : List α) :
    l.zip (l.map f) = l.map (fun a => (a, f a)) := by
  induction l with
  | nil => rfl
  | cons a l ih => simp [ih]

theorem applyPhase_all_ok (failWrites : List String) :
    ∀ (pairs : List (RefCommand × RefUpdateResult)) (st : RepoState),
    (∀ pr ∈ pairs, pr.2.ok = true) → (∀ pr ∈ pairs, pr.1.ref ∉ failWrites) →
    applyPhase failWrites st pairs =
      (pairs.map Prod.snd, applyCmds st (pairs.map Prod.fst)) := by
  intro pairs
  induction pairs with
  | nil => intro st _ _; rfl
  | cons pr rest ih =>
    intro st hok hw
    obtain ⟨cmd, r⟩ := pr
    have hr : r.ok = true := hok (cmd, r) (by simp)
    have hc : cmd.ref ∉ failWrites := hw (cmd, r) (by simp)
    unfold applyPhase
    rw [if_pos hr, if_neg (by simpa using hc)]
    dsimp only
    rw [ih _ (fun q hq => hok q (by simp [hq])) (fun q hq => hw q (by simp [hq]))]
    simp only [List.map_cons, applyCmds, List.foldl_cons]

/-- C1 (amended): with `atomic = true`, if any command fails validation the
whole batch is rejected: every per-ref result is failed and no ref is created,
updated or deleted.  If no store write fails, the batch is all-or-nothing:
either every result is ok and every command is applied, or the state is
unchanged and every result failed.  (The unamended claim — all-or-nothing even
across store-level write failures — fails on the code: the apply phase has no
rollback, see the counterexample.) -/
theorem applyRefUpdates_atomic_allornone (isDesc : String → String → Bool)
    (failWrites : List String) (st : RepoState) (cmds : List RefCommand)
    (hW : ∀ c ∈ cmds, c.ref ∉ failWrites) :
    ((∀ r ∈ (applyRefUpdates isDesc failWrites st cmds true).1, r.ok = true) ∧
      (applyRefUpdates isDesc failWrites st cmds true).2 = applyCmds st cmds) ∨
    ((applyRefUpdates isDesc failWrites st cmds true).2 = st ∧
      ∀ r ∈ (applyRefUpdates isDesc failWrites st cmds true).1, r.ok = false) := by
  by_cases hv : (cmds.map (validateCmd isDesc st)).any (fun r => !r.ok)
  · right
    unfold applyRefUpdates
    rw [if_pos ⟨rfl, hv⟩]
    refine ⟨rfl, ?_⟩
    intro r hr
    simp only [List.mem_map] at hr
    obtain ⟨r0, -, rfl⟩ := hr
    rfl
  · left
    have hallok : ∀ c ∈ cmds, (validateCmd isDesc st c).ok = true := by
      intro c hcm
      by_contra hne
      exact hv (List.any_eq_true.mpr
        ⟨validateCmd isDesc st c, List.mem_map_of_mem _ hcm, by simpa using hne⟩)
    unfold applyRefUpdates
    rw [if_neg (fun hc => hv hc.2)]
    rw [zip_map_self (validateCmd isDesc st) cmds]
    rw [applyPhase_all_ok failWrites _ st
      (by intro pr hpr
          simp only [List.mem_map] at hpr
          obtain ⟨c, hcm, rfl⟩ := hpr
          exact hallok c hcm)
      (by intro pr hpr
          simp only [List.mem_map] at hpr
          obtain ⟨c, hcm, rfl⟩ := hpr
          exact hW c hcm)]
    simp only [List.map_map]
    constructor
    · intro r hr
      simp only [List.mem_map, Function.comp] at hr
      obtain ⟨c, hcm, rfl⟩ := hr
      exact hallok c hcm
    · have : (List.map (Prod.fst ∘ fun a => (a, validateCmd isDesc st a)) cmds) = cmds := by
        rw [show (Prod.fst ∘ fun a : RefCommand => (a, validateCmd isDesc st a)) = id from rfl,
          List.map_id]
      rw [this]

/-- Witness for `applyRefUpdates_atomic_allornone`: a one-command atomic batch
(create refs/heads/one) over the empty repository, with no store failure. -/
theorem applyRefUpdates_atomic_allornone_witness :
    ((∀ r ∈ (applyRefUpdates (fun _ _ => true) [] ⟨[], []⟩
        [⟨zeroOid, "a1", "refs/heads/one"⟩] true).1, r.ok = true) ∧
      (applyRefUpdates (fun _ _ => true) [] ⟨[], []⟩
        [⟨zeroOid, "a1", "refs/heads/one"⟩] true).2 =
        applyCmds ⟨[], []⟩ [⟨zeroOid, "a1", "refs/heads/one"⟩]) ∨
    ((applyRefUpdates (fun _ _ => true) [] ⟨[], []⟩
        [⟨zeroOid, "a1", "refs/heads/one"⟩] true).2 = ⟨[], []⟩ ∧
      ∀ r ∈ (applyRefUpdates (fun _ _ => true) [] ⟨[], []⟩
        [⟨zeroOid, "a1", "refs/heads/one"⟩] true).1, r.ok = false) :=
  applyRefUpdates_atomic_allornone (fun _ _ => true) [] ⟨[], []⟩
    [⟨zeroOid, "a1", "refs/heads/one"⟩] (by simp)

/-- C1 counterexample: an atomic batch of two creates where the store write of
the second ref throws.  Both commands validate ok, so the apply phase runs:
the first ref IS created and stays created, while the second entry is flipped
to a failure — neither "all applied and all ok" nor "no ref changed". -/
theorem applyRefUpdates_no_rollback_counterexample :
    applyRefUpdates (fun _ _ => true) ["refs/heads/two"] ⟨[], []⟩
        [⟨zeroOid, "a1", "refs/heads/one"⟩, ⟨zeroOid, "a2", "refs/heads/two"⟩] true =
      ([⟨"refs/heads/one", true, none⟩,
        ⟨"refs/heads/two", false, some "failed to update: store write failed"⟩],
       ⟨[("refs/heads/one", "a1")], []⟩) ∧
    ([("refs/heads/one", "a1")] : List (String × String)) ≠ [] := by
  exact ⟨rfl, by simp⟩

/-- C6 (amended): for an atomic push of two commands where the first validates
ok and the second fails validation, no refs change and both results are failed;
the previously-ok first result reports "atomic transaction failed", while the
failing second result keeps its own validation error (`r.error || "atomic
transaction failed"` keeps an existing message).  (The unamended claim — both
report "atomic transaction failed" — is refuted by the counterexample.) -/
theorem applyRefUpdates_atomic_pair (isDesc : String → String → Bool)
    (failWrites : List String) (st : RepoState) (c1 c2 : RefCommand)
    (h1 : (validateCmd isDesc st c1).ok = true)
    (h2 : (validateCmd isDesc st c2).ok = false) :
    applyRefUpdates isDesc failWrites st [c1, c2] true =
      ([⟨c1.ref, false, some "atomic transaction failed"⟩,
        ⟨c2.ref, false,
          some ((validateCmd isDesc st c2).error.getD "atomic transaction failed")⟩],
       st) ∧
    (validateCmd isDesc st c2).error ≠ none := by
  constructor
  · unfold applyRefUpdates
    rw [if_pos ⟨rfl, List.any_eq_true.mpr
      ⟨validateCmd isDesc st c2, by simp, by simp [h2]⟩⟩]
    simp only [List.map_cons, List.map_nil]
    rw [validateCmd_ok_error isDesc st c1 h1, validateCmd_ref, validateCmd_ref]
    rfl
  · obtain ⟨msg, hmsg⟩ := validateCmd_not_ok_error isDesc st c2 h2
    rw [hmsg]
    simp

/-- Witness for `applyRefUpdates_atomic_pair`: create refs/heads/one (ok) plus
an update of the absent refs/heads/two (fails with "ref doesn't exist"). -/
theorem applyRefUpdates_atomic_pair_witness :
    applyRefUpdates (fun _ _ => true) [] ⟨[], []⟩
        [⟨zeroOid, "a1", "refs/heads/one"⟩, ⟨"b1", "b2", "refs/heads/two"⟩] true =
      ([⟨"refs/heads/one", false, some "atomic transaction failed"⟩,
        ⟨"refs/heads/two", false,
          some ((validateCmd (fun _ _ => true) ⟨[], []⟩
            ⟨"b1", "b2", "refs/heads/two"⟩).error.getD "atomic transaction failed")⟩],
       ⟨[], []⟩) ∧
    (validateCmd (fun _ _ => true) ⟨[], []⟩ ⟨"b1", "b2", "refs/heads/two"⟩).error ≠ none :=
  applyRefUpdates_atomic_pair (fun _ _ => true) [] ⟨[], []⟩
    ⟨zeroOid, "a1", "refs/heads/one"⟩ ⟨"b1", "b2", "refs/heads/two"⟩ (by decide) (by decide)

/-- C6 counterexample: atomic push of a valid create plus an update of an absent
ref.  The update's result carries its own error "ref doesn't exist", NOT
"atomic transaction failed" as the claim demands of both results (the refs are
indeed untouched). -/
theorem applyRefUpdates_atomic_pair_counterexample :
    applyRefUpdates (fun _ _ => true) [] ⟨[], []⟩
        [⟨zeroOid, "a1", "refs/heads/one"⟩, ⟨"b1", "b2", "refs/heads/two"⟩] true =
      ([⟨"refs/heads/one", false, some "atomic transaction failed"⟩,
        ⟨"refs/heads/two", false, some "ref doesn't exist"⟩], ⟨[], []⟩) ∧
    some "ref doesn't exist" ≠ some "atomic transaction failed" := by
  refine ⟨rfl, ?_⟩
  simp only [ne_eq, Option.some.injEq]
  decide

theorem validateCmd_update_char (isDesc : String → String → Bool) (st : RepoState)
    (cmd : RefCommand) (hOld : cmd.oldOid ≠ zeroOid) (hNew : cmd.newOid ≠ zeroOid) :
    validateCmd isDesc st cmd =
      match resolveRefIn st cmd.ref with
      | none => ⟨cmd.ref, false, some "ref doesn't exist"⟩
      | some cur =>
        if cur = cmd.oldOid then
          (if isDesc cmd.newOid cur then ⟨cmd.ref, true, none⟩
           else ⟨cmd.ref, false, some "non-fast-forward update rejected"⟩)
        else ⟨cmd.ref, false, some "ref update rejected: old OID mismatch"⟩ := by
  unfold validateCmd
  dsimp only
  cases hres : resolveRefIn st cmd.ref with
  | none =>
    rw [if_neg (by rintro ⟨hs, -, -⟩; simp at hs)]
    rw [if_neg hNew, if_neg hOld]
  | some cur =>
    by_cases hcur : cur = cmd.oldOid
    · subst hcur
      rw [if_neg (by rintro ⟨-, -, hne⟩; exact hne rfl)]
      rw [if_neg hNew, if_neg hOld]
      dsimp only
      rw [if_pos rfl]
    · rw [if_pos ⟨rfl, hOld, by simpa using hcur⟩]
      dsimp only
      rw [if_neg hcur]

/-- C4: for every command with `oldOid ≠ ZERO_OID` and `newOid ≠ ZERO_OID`,
`applyRefUpdates`' validation marks it ok iff the ref is present, its current
OID equals `oldOid`, and `isDescendant(newOid, currentOid)` holds; otherwise the
result carries verbatim "ref doesn't exist" (ref absent), "ref update rejected:
old OID mismatch" (present, different OID), or "non-fast-forward update
rejected" (matching OID, not a descendant); and for a singleton batch with no
store failure, `applyRefUpdates` returns exactly that validation result. -/
theorem updateCommandClassification (isDesc : String → String → Bool)
    (st : RepoState) (cmd : RefCommand) (atomic : Bool)
    (hOld : cmd.oldOid ≠ zeroOid) (hNew : cmd.newOid ≠ zeroOid) :
    ((validateCmd isDesc st cmd).ok = true ↔
      (resolveRefIn st cmd.ref = some cmd.oldOid ∧ isDesc cmd.newOid cmd.oldOid = true)) ∧
    (resolveRefIn st cmd.ref = none →
      (validateCmd isDesc st cmd).error = some "ref doesn't exist") ∧
    (∀ cur, resolveRefIn st cmd.ref = some cur → cur ≠ cmd.oldOid →
      (validateCmd isDesc st cmd).error = some "ref update rejected: old OID mismatch") ∧
    (resolveRefIn st cmd.ref = some cmd.oldOid → isDesc cmd.newOid cmd.oldOid = false →
      (validateCmd isDesc st cmd).error = some "non-fast-forward update rejected") ∧
    (applyRefUpdates isDesc [] st [cmd] atomic).1 = [validateCmd isDesc st cmd] := by
  have hchar := validateCmd_update_char isDesc st cmd hOld hNew
  refine ⟨?_, ?_, ?_, ?_, ?_⟩
  · rw [hchar]
    cases hres : resolveRefIn st cmd.ref with
    | none => simp
    | some cur =>
      dsimp only
      by_cases hcur : cur = cmd.oldOid
      · subst hcur
        rw [if_pos rfl]
        by_cases hdesc : isDesc cmd.newOid cmd.oldOid
        · simp [hdesc]
        · simp [hdesc]
      · rw [if_neg hcur]
        simp only [Option.some.injEq]
        constructor
        · intro h
          simp at h
        · rintro ⟨hc, -⟩
          exact absurd hc hcur
  · intro hres
    rw [hchar, hres]
  · intro cur hres hcur
    rw [hchar, hres]
    dsimp only
    rw [if_neg hcur]
  · intro hres hdesc
    rw [hchar, hres]
    dsimp only
    rw [if_pos rfl, if_neg (by simp [hdesc])]
  · rcases validateCmd_cases isDesc st cmd with hv | ⟨msg, hv⟩
    · have hnone : ¬(true = true ∧ ([cmd].map (validateCmd isDesc st)).any (fun r => !r.ok) = true) := by
        rintro ⟨-, hany⟩
        rw [List.map_cons, List.map_nil, List.any_cons, List.any_nil, hv] at hany
        simp at hany
      unfold applyRefUpdates
      rw [if_neg (fun hc => hnone ⟨rfl, hc.2⟩)]
      simp only [List.map_cons, List.map_nil, List.zip_cons_cons, List.zip_nil_right]
      unfold applyPhase
      rw [hv]
      rw [if_pos rfl, if_neg (by simp)]
      rfl
    · cases atomic with
      | true =>
        unfold applyRefUpdates
        rw [if_pos ⟨rfl, by rw [List.map_cons, List.map_nil, List.any_cons, List.any_nil, hv]; simp⟩]
        simp only [List.map_cons, List.map_nil]
        rw [hv]
        rfl
      | false =>
        unfold applyRefUpdates
        rw [if_neg (by rintro ⟨hfalse, -⟩; simp at hfalse)]
        simp only [List.map_cons, List.map_nil, List.zip_cons_cons, List.zip_nil_right]
        unfold applyPhase
        rw [hv]
        rw [if_neg (by simp)]
        rfl

/-- Witness for `updateCommandClassification`: a fast-forward update of
refs/heads/m from x1 to y1 on a repository where refs/heads/m = x1 and the
descendant oracle answers true. -/
theorem updateCommandClassification_witness :
    (((validateCmd (fun _ _ => true) ⟨[("refs/heads/m", "x1")], []⟩
        ⟨"x1", "y1", "refs/heads/m"⟩).ok = true ↔
      (resolveRefIn ⟨[("refs/heads/m", "x1")], []⟩ "refs/heads/m" = some "x1" ∧
        (fun (_ _ : String) => true) "y1" "x1" = true)) ∧
    (resolveRefIn ⟨[("refs/heads/m", "x1")], []⟩ "refs/heads/m" = none →
      (validateCmd (fun _ _ => true) ⟨[("refs/heads/m", "x1")], []⟩
        ⟨"x1", "y1", "refs/heads/m"⟩).error = some "ref doesn't exist") ∧
    (∀ cur, resolveRefIn ⟨[("refs/heads/m", "x1")], []⟩ "refs/heads/m" = some cur →
      cur ≠ "x1" →
      (validateCmd (fun _ _ => true) ⟨[("refs/heads/m", "x1")], []⟩
        ⟨"x1", "y1", "refs/heads/m"⟩).error = some "ref update rejected: old OID mismatch") ∧
    (resolveRefIn ⟨[("refs/heads/m", "x1")], []⟩ "refs/heads/m" = some "x1" →
      (fun (_ _ : String) => true) "y1" "x1" = false →
      (validateCmd (fun _ _ => true) ⟨[("refs/heads/m", "x1")], []⟩
        ⟨"x1", "y1", "refs/heads/m"⟩).error = some "non-fast-forward update rejected") ∧
    (applyRefUpdates (fun _ _ => true) [] ⟨[("refs/heads/m", "x1")], []⟩
      [⟨"x1", "y1", "refs/heads/m"⟩] false).1 =
      [validateCmd (fun _ _ => true) ⟨[("refs/heads/m", "x1")], []⟩
        ⟨"x1", "y1", "refs/heads/m"⟩]) :=
  updateCommandClassification (fun _ _ => true) ⟨[("refs/heads/m", "x1")], []⟩
    ⟨"x1", "y1", "refs/heads/m"⟩ false (by decide) (by decide)

/-- C5 failing input: a create command whose `newOid` is absent from the object
store.  The validation phase checks only that the ref is absent (service.ts
lines 816-825) and never consults the object store, so the command is reported
ok and the ref is written to a non-existent object — contradicting the spec
invariant that every accepted `newOid ≠ ZERO_OID` exists before the ref update. -/
theorem createAcceptsMissingObject :
    applyRefUpdates (fun _ _ => true) [] ⟨[], []⟩
        [⟨zeroOid, "aaaaaaaaaaaaaaaaaaaaaaaaaaaaaaaaaaaaaaaa", "refs/heads/x"⟩] false =
      ([⟨"refs/heads/x", true, none⟩],
       ⟨[("refs/heads/x", "aaaaaaaaaaaaaaaaaaaaaaaaaaaaaaaaaaaaaaaa")], []⟩) ∧
    "aaaaaaaaaaaaaaaaaaaaaaaaaaaaaaaaaaaaaaaa" ∉ (⟨[], []⟩ : RepoState).objects := by
  exact ⟨rfl, by simp⟩

/-- A Git object as the pack walker traverses it: only the outgoing edges
matter (service.ts lines 554-594). -/
inductive GitObj where
  | commit (tree : String) (parents : List String)
  | tree (entries : List String)
  | tag (object : String)
  | blob
deriving DecidableEq, Repr

/-- The children enqueued for one visited object: commit → its tree then its
parents (lines 564-569); tree → all entry OIDs (lines 580-582); tag → its
target (line 592); blob → none. -/
def children : GitObj → List String
  | .commit tree parents => tree :: parents
  | .tree entries => entries
  | .tag object => [object]
  | .blob => []

/-- The readable object store; `none` models a `git.readObject` throw, which
the walker logs and skips (lines 595-600). -/
def lookupObj (graph : List (String × GitObj)) (oid : String) : Option GitObj :=
  (graph.find? (fun pr => pr.1 = oid)).map (fun pr => pr.2)

/-- The BFS loop of `collectObjectsForPack` (service.ts lines 534-601), with
the iteration count made explicit as `fuel`.  Each iteration dequeues one OID
(`queue.shift()`), skips it when falsy (the empty string, `!oid`) or already
visited, stops at any OID in `haves` without recording it or enqueuing its
children, and otherwise records it (`objectsToSend`, kept in insertion order —
the JavaScript `Set` iterates in insertion order and duplicates never enter)
and enqueues its children.  The initial fuel `wants.length + totalChildren
graph` bounds the number of dequeues: every dequeue consumes one earlier
enqueue, the initial enqueues are the wants, and the children of a graph entry
are enqueued at most once (only when their parent is first visited), so the
fuel-exhaustion branch is unreachable. -/
def collectGo (graph : List (String × GitObj)) (haves : List String) :
    Nat → List String → List String → List String → List String
  | 0, _, _, sent => sent
  | _ + 1, [], _, sent => sent
  | fuel + 1, oid :: queue, visited, sent =>
    if oid = "" ∨ oid ∈ visited then collectGo graph haves fuel queue visited sent
    else if oid ∈ haves then collectGo graph haves fuel queue (oid :: visited) sent
    else
      match lookupObj graph oid with
      | none => collectGo graph haves fuel queue (oid :: visited) (sent ++ [oid])
      | some obj =>
        collectGo graph haves fuel (queue ++ children obj) (oid :: visited) (sent ++ [oid])

/-- Upper bound on the number of enqueues the walk can perform beyond the
initial wants. -/
def totalChildren (graph : List (String × GitObj)) : Nat :=
  (graph.map (fun pr => (children pr.2).length)).sum

/-- `GitService.collectObjectsForPack` (service.ts lines 523-604). -/
def collectObjectsForPack (graph : List (String × GitObj))
    (wants haves : List String) : List String :=
  collectGo graph haves (wants.length + totalChildren graph) wants [] []

theorem collectGo_sent_mono (graph : List (String × GitObj)) (haves : List String) :
    ∀ (fuel : Nat) (queue visited sent : List String) (x : String),
    x ∈ sent → x ∈ collectGo graph haves fuel queue visited sent := by
  intro fuel
  induction fuel with
  | zero => intro queue visited sent x hx; simpa [collectGo] using hx
  | succ fuel ih =>
    intro queue visited sent x hx
    cases queue with
    | nil => simpa [collectGo] using hx
    | cons oid rest =>
      simp only [collectGo]
      by_cases h1 : oid = "" ∨ oid ∈ visited
      · rw [if_pos h1]
        exact ih _ _ _ x hx
      · rw [if_neg h1]
        by_cases h2 : oid ∈ haves
        · rw [if_pos h2]
          exact ih _ _ _ x hx
        · rw [if_neg h2]
          cases hobj : lookupObj graph oid with
          | none => exact ih _ _ _ x (List.mem_append_left _ hx)
          | some obj => exact ih _ _ _ x (List.mem_append_left _ hx)

theorem mem_take_append {x : String} {l l2 : List String} {n : Nat}
    (h : x ∈ l.take n) : x ∈ (l ++ l2).take n := by
  rw [List.take_append_eq_append_take]
  exact List.mem_append_left _ h

theorem collectGo_mem_of_queue (graph : List (String × GitObj)) (haves : List String) :
    ∀ (fuel : Nat) (queue visited sent : List String) (w : String),
    w ∈ queue.take fuel → w ≠ "" → w ∉ haves →
    (∀ v ∈ visited, v ∉ haves → v ∈ sent) →
    w ∈ collectGo graph haves fuel queue visited sent := by
  intro fuel
  induction fuel with
  | zero => intro queue visited sent w hw _ _ _; simp at hw
  | succ fuel ih =>
    intro queue visited sent w hw hne hnh hinv
    cases queue with
    | nil => simp at hw
    | cons oid rest =>
      rw [List.take_succ_cons] at hw
      simp only [collectGo]
      by_cases h1 : oid = "" ∨ oid ∈ visited
      · rw [if_pos h1]
        by_cases hwo : w = oid
        · subst hwo
          rcases h1 with h1 | h1
          · exact absurd h1 hne
          · exact collectGo_sent_mono graph haves _ _ _ _ w (hinv w h1 hnh)
        · refine ih rest visited sent w ?_ hne hnh hinv
          rcases List.mem_cons.mp hw with h | h
          · exact absurd h hwo
          · exact h
      · rw [if_neg h1]
        by_cases h2 : oid ∈ haves
        · rw [if_pos h2]
          by_cases hwo : w = oid
          · subst hwo
            exact absurd h2 hnh
          · refine ih rest _ sent w ?_ hne hnh ?_
            · rcases List.mem_cons.mp hw with h | h
              · exact absurd h hwo
              · exact h
            · intro v hv hvn
              rcases List.mem_cons.mp hv with rfl | hv
              · exact absurd h2 hvn
              · exact hinv v hv hvn
        · rw [if_neg h2]
          have hinv' : ∀ v ∈ oid :: visited, v ∉ haves → v ∈ sent ++ [oid] := by
            intro v hv hvn
            rcases List.mem_cons.mp hv with rfl | hv
            · exact List.mem_append_right _ (by simp)
            · exact List.mem_append_left _ (hinv v hv hvn)
          cases hobj : lookupObj graph oid with
          | none =>
            by_cases hwo : w = oid
            · subst hwo
              exact collectGo_sent_mono graph haves _ _ _ _ w
                (List.mem_append_right _ (by simp))
            · refine ih rest _ _ w ?_ hne hnh hinv'
              rcases List.mem_cons.mp hw with h | h
              · exact absurd h hwo
              · exact h
          | some obj =>
            by_cases hwo : w = oid
            · subst hwo
              exact collectGo_sent_mono graph haves _ _ _ _ w
                (List.mem_append_right _ (by simp))
            · refine ih (rest ++ children obj) _ _ w ?_ hne hnh hinv'
              refine mem_take_append ?_
              rcases List.mem_cons.mp hw with h | h
              · exact absurd h hwo
              · exact h

theorem collectGo_not_have (graph : List (String × GitObj)) (haves : List String) :
    ∀ (fuel : Nat) (queue visited sent : List String) (x : String),
    (∀ s ∈ sent, s ∉ haves) →
    x ∈ collectGo graph haves fuel queue visited sent → x ∉ haves := by
  intro fuel
  induction fuel with
  | zero =>
    intro queue visited sent x hs hx
    rw [collectGo] at hx
    exact hs x hx
  | succ fuel ih =>
    intro queue visited sent x hs hx
    cases queue with
    | nil =>
      rw [collectGo] at hx
      exact hs x hx
    | cons oid rest =>
      simp only [collectGo] at hx
      by_cases h1 : oid = "" ∨ oid ∈ visited
      · rw [if_pos h1] at hx
        exact ih _ _ _ x hs hx
      · rw [if_neg h1] at hx
        by_cases h2 : oid ∈ haves
        · rw [if_pos h2] at hx
          exact ih _ _ _ x hs hx
        · rw [if_neg h2] at hx
          have hs' : ∀ s ∈ sent ++ [oid], s ∉ haves := by
            intro s hsm
            rcases List.mem_append.mp hsm with hsm | hsm
            · exact hs s hsm
            · rw [List.mem_singleton.mp hsm]
              exact h2
          cases hobj : lookupObj graph oid with
          | none =>
            rw [hobj] at hx
            exact ih _ _ _ x hs' hx
          | some obj =>
            rw [hobj] at hx
            exact ih _ _ _ x hs' hx

/-- C3 (amended): the OID set returned by `collectObjectsForPack(wants, haves)`
contains every non-empty OID of `wants` that is not in `haves`, and contains no
OID in `haves`.  (The unamended claim — it contains EVERY OID in `wants` — fails
when a want is itself a have: the BFS stops at any OID in `haves` before
recording it, and the `!oid` guard also drops an empty-string want; see the
counterexample.) -/
theorem collectObjects_wants_haves (graph : List (String × GitObj))
    (wants haves : List String) :
    (∀ w ∈ wants, w ≠ "" → w ∉ haves → w ∈ collectObjectsForPack graph wants haves) ∧
    (∀ x ∈ collectObjectsForPack graph wants haves, x ∉ haves) := by
  constructor
  · intro w hw hne hnh
    refine collectGo_mem_of_queue graph haves _ wants [] [] w ?_ hne hnh (by simp)
    rw [List.take_of_length_le (by omega)]
    exact hw
  · intro x hx
    exact collectGo_not_have graph haves _ wants [] [] x (by simp) hx

/-- C3 counterexample: with `wants = ["a"]` and `haves = ["a"]` the returned set
is empty, so it does not contain the want "a" — the walk stops at a have before
recording it, refuting "contains every OID in wants". -/
theorem collectObjects_want_in_haves_counterexample :
    collectObjectsForPack [] ["a"] ["a"] = [] ∧
      "a" ∉ collectObjectsForPack [] ["a"] ["a"] := by
  refine ⟨rfl, ?_⟩
  rw [show collectObjectsForPack [] ["a"] ["a"] = [] from rfl]
  simp

/-- `String.prototype.startsWith`, modelled on the character lists (JavaScript
compares UTF-16 code units; on these protocol strings the two coincide). -/
def strStartsWith (s p : String) : Bool := p.data.isPrefixOf s.data

/-- `arg.slice(n)` on characters. -/
def strDrop (s : String) (n : Nat) : String := ⟨s.data.drop n⟩

/-- A ref row as `listRefs` returns it (`Array<{ ref, oid }>`). -/
structure RefEntry where
  ref : String
  oid : String
deriving DecidableEq, Repr

/-- One element of the `lines` array of `buildLsRefsResponse`: a data pkt-line
with its pre-encoding text, or the final flush. -/
inductive LsLine where
  | data (line : String)
  | flush
deriving DecidableEq, Repr

/-- A lowercase-hex character as the `[0-9a-f]` class of the peel regex. -/
def isHexDigitChar (c : Char) : Bool := c.isDigit || ('a' ≤ c && c ≤ 'f')

/-- The regex `/^object ([0-9a-f]{40})/m` over a tag object's content
(protocol.ts lines 374-378): the first line starting with "object " followed by
40 lowercase-hex characters yields that capture; other lines are skipped. -/
def tagTargetOid (content : String) : Option String :=
  (content.data.splitOn '\n').findSome? (fun l =>
    if "object ".data.isPrefixOf l then
      let cand := (l.drop 7).take 40
      if cand.length = 40 ∧ cand.all isHexDigitChar then some (String.mk cand) else none
    else none)

/-- Argument parsing of `buildLsRefsResponse` (protocol.ts lines 333-345):
`(refPrefixes, includePeel, includeSymrefs)`. -/
def parseLsArgs (args : List String) : List String × Bool × Bool :=
  args.foldl
    (fun acc arg =>
      if arg = "peel" then (acc.1, true, acc.2.2)
      else if arg = "symrefs" then (acc.1, acc.2.1, true)
      else if strStartsWith arg "ref-prefix " then
        (acc.1 ++ [strDrop arg 11], acc.2.1, acc.2.2)
      else acc)
    ([], false, false)

/-- The loop body of `buildLsRefsResponse` for one filtered ref (protocol.ts
lines 355-381): the `<oid> <ref>` line, with ` symref-target:<t>` appended when
symrefs were requested, the ref is HEAD and the symbolic head is non-null and
non-empty (JavaScript truthiness), followed by the peeled line for an annotated
tag when peeling was requested.  `readObject` stands for the
`readObjectForLsRefs` callback (type, content); `none` models its null. -/
def lsRefLines (includePeel includeSymrefs : Bool) (symbolicHead : Option String)
    (readObject : String → Option (String × String)) (r : RefEntry) : List LsLine :=
  let line := r.oid ++ " " ++ r.ref
  let line :=
    match symbolicHead with
    | some t =>
      if includeSymrefs = true ∧ r.ref = "HEAD" ∧ t ≠ "" then
        line ++ " symref-target:" ++ t
      else line
    | none => line
  let peeled : List LsLine :=
    if includePeel = true ∧ strStartsWith r.ref "refs/tags/" = true then
      match readObject r.oid with
      | some (ty, content) =>
        if ty = "tag" then
          match tagTargetOid content with
          | some peeledOid => [.data (peeledOid ++ " " ++ r.ref ++ "^\x7b\x7d\n")]
          | none => []
        else []
      | none => []
    else []
  .data (line ++ "\n") :: peeled

/-- `buildLsRefsResponse` (protocol.ts lines 322-393) at the pkt-line level:
each `lines.push(PktLine.encode(text))` becomes one `LsLine.data text` (the
lines are far below the 65,516-byte limit, so the encode throw is not
modelled), the final `encodeFlush` becomes `LsLine.flush`. -/
def buildLsRefsLines (refs : List RefEntry) (args : List String)
    (symbolicHead : Option String)
    (readObject : String → Option (String × String)) : List LsLine :=
  let parsed := parseLsArgs args
  let refPrefixes := parsed.1
  let includePeel := parsed.2.1
  let includeSymrefs := parsed.2.2
  let filteredRefs :=
    if refPrefixes.length > 0 then
      refs.filter (fun r => refPrefixes.any (fun p => strStartsWith r.ref p))
    else refs
  (filteredRefs.map (lsRefLines includePeel includeSymrefs symbolicHead readObject)).flatten
    ++ [.flush]

theorem lsRefLines_plain (symbolicHead : Option String)
    (readObject : String → Option (String × String)) (r : RefEntry)
    (hr : r.ref ≠ "HEAD") :
    lsRefLines false true symbolicHead readObject r =
      [.data (r.oid ++ " " ++ r.ref ++ "\n")] := by
  cases symbolicHead with
  | none =>
    unfold lsRefLines
    dsimp only
    rw [if_neg (by simp)]
  | some t =>
    unfold lsRefLines
    dsimp only
    rw [if_neg (by rintro ⟨-, hh, -⟩; exact hr hh)]
    rw [if_neg (by simp)]

/-- C7 (amended): for an ls-refs request with args `symrefs` and `ref-prefix
refs/heads/`, the ref-prefix filter drops HEAD ("HEAD" does not start with
"refs/heads/"), so the response is exactly one plain `<oid> <ref>` line per
refs/heads/* ref, in listRefs order, followed by flush — it does NOT begin with
a `<HEAD-OID> HEAD symref-target:…` line (see the counterexample). -/
theorem lsRefs_heads_prefix_filters_head (refs : List RefEntry)
    (symbolicHead : Option String)
    (readObject : String → Option (String × String)) :
    buildLsRefsLines refs ["symrefs", "ref-prefix refs/heads/"] symbolicHead readObject =
      (refs.filter (fun r => strStartsWith r.ref "refs/heads/")).map
        (fun r => LsLine.data (r.oid ++ " " ++ r.ref ++ "\n")) ++ [.flush] := by
  unfold buildLsRefsLines
  rw [show parseLsArgs ["symrefs", "ref-prefix refs/heads/"] =
    (["refs/heads/"], false, true) from by decide]
  dsimp only
  rw [if_pos (by decide)]
  have hfilter : refs.filter (fun r => ["refs/heads/"].any (fun p => strStartsWith r.ref p)) =
      refs.filter (fun r => strStartsWith r.ref "refs/heads/") := by
    apply List.filter_congr
    intro r _
    rw [List.any_cons, List.any_nil, Bool.or_false]
  rw [hfilter]
  have hmap : ∀ l : List RefEntry, (∀ r ∈ l, strStartsWith r.ref "refs/heads/" = true) →
      (l.map (lsRefLines false true symbolicHead readObject)).flatten =
        l.map (fun r => LsLine.data (r.oid ++ " " ++ r.ref ++ "\n")) := by
    intro l
    induction l with
    | nil => intro _; rfl
    | cons r rs ih =>
      intro hmem
      have hr : r.ref ≠ "HEAD" := by
        intro hh
        have hsw := hmem r (by simp)
        rw [hh] at hsw
        exact absurd hsw (by decide)
      rw [List.map_cons, List.flatten_cons, lsRefLines_plain symbolicHead readObject r hr,
        ih (fun q hq => hmem q (by simp [hq])), List.map_cons]
      rfl
  rw [hmap _ (fun r hr => (List.mem_filter.mp hr).2)]

/-- C7 counterexample: HEAD is a symref to refs/heads/main with OID
1111…1, and refs/heads/main has the same OID.  With args [symrefs,
ref-prefix refs/heads/] the response is `<OID> refs/heads/main\n` then flush —
its first line is NOT the claimed `<HEAD-OID> HEAD
symref-target:refs/heads/main\n`. -/
theorem lsRefs_head_line_missing_counterexample :
    buildLsRefsLines
        [⟨"HEAD", "1111111111111111111111111111111111111111"⟩,
         ⟨"refs/heads/main", "1111111111111111111111111111111111111111"⟩]
        ["symrefs", "ref-prefix refs/heads/"]
        (some "refs/heads/main") (fun _ => none) =
      [.data "1111111111111111111111111111111111111111 refs/heads/main\n", .flush] ∧
    (LsLine.data "1111111111111111111111111111111111111111 refs/heads/main\n" ≠
      .data "1111111111111111111111111111111111111111 HEAD symref-target:refs/heads/main\n") := by
  constructor
  · decide
  · decide

end Gitvex
